import Mathlib

/-!
Verification of the computational core of the black-hole visualization
script (`src/code.py`): the Schwarzschild-radius calculation
(`schwarzschild_radius`, called RadiusCalculator in the design document)
and the elementwise accretion-disk field (`accretion_disk`, called
FieldSynthesizer). Machine floats are modelled as exact real numbers;
numpy's elementwise operations are modelled cellwise and lifted to lists
of coordinate pairs for the grid-level statements.
-/

/-- `schwarzschild_radius` from `src/code.py`:
`G = 6.67430e-11`, `c = 299792458`, the mass is converted from solar
masses to kilograms by multiplying with `1.98847e30`, and the result is
`2 * G * M / c**2`. -/
noncomputable def schwarzschild_radius (M : ℝ) : ℝ :=
  let G : ℝ := 6.67430e-11
  let c : ℝ := 299792458
  let Mkg : ℝ := M * 1.98847e30
  2 * G * Mkg / c ^ 2

/-- The specification's closed form `Rs = 2 · G · (M · Msun) / c²` with
the spec's fixed constants `G = 6.67430e-11`, `c = 299792458`,
`Msun = 1.98847e30`, written exactly as the spec states it. -/
noncomputable def radius_spec (M : ℝ) : ℝ :=
  2 * 6.67430e-11 * (M * 1.98847e30) / 299792458 ^ 2

/-- `r = np.sqrt(x**2 + y**2)` from `accretion_disk`. -/
noncomputable def radialDist (x y : ℝ) : ℝ :=
  Real.sqrt (x ^ 2 + y ^ 2)

/-- `brightness = np.exp(-((r - Rs * 3) / Rs))` from `accretion_disk`. -/
noncomputable def brightnessTerm (r Rs : ℝ) : ℝ :=
  Real.exp (-((r - Rs * 3) / Rs))

/-- `color = np.clip(1 - r / (5 * Rs), 0, 1)` from `accretion_disk`
(numpy clip: lower bound applied via max, then upper bound via min). -/
noncomputable def colorTerm (r Rs : ℝ) : ℝ :=
  min (max (1 - r / (5 * Rs)) 0) 1

/-- `accretion_disk` from `src/code.py`, per cell: `brightness * color`
at the radial distance of the cell. -/
noncomputable def accretion_disk (x y Rs : ℝ) : ℝ :=
  brightnessTerm (radialDist x y) Rs * colorTerm (radialDist x y) Rs

/-- The elementwise `accretion_disk` lifted to a grid, modelled as a list
of coordinate pairs (numpy applies each operation cellwise). -/
noncomputable def accretionDiskGrid (g : List (ℝ × ℝ)) (Rs : ℝ) : List ℝ :=
  g.map fun p => accretion_disk p.1 p.2 Rs

/-- C2: for every mass `M`, `schwarzschild_radius` returns exactly
`2 · G · (M · Msun) / c²` with the fixed constants `G = 6.67430e-11`,
`c = 299792458`, `Msun = 1.98847e30`; as a Lean function it is pure and
deterministic by construction. -/
theorem schwarzschild_radius_eq_spec (M : ℝ) :
    schwarzschild_radius M = radius_spec M := by
  rfl

/-- C3: `schwarzschild_radius 10` is within relative tolerance `1e-3`
of 29539 meters. -/
theorem schwarzschild_radius_ten_approx :
    |schwarzschild_radius 10 - 29539| ≤ 1e-3 * 29539 := by
  rw [abs_sub_le_iff]
  unfold schwarzschild_radius
  norm_num

/-- C4: for every mass `M > 0`, `schwarzschild_radius M > 0`, and the
result scales linearly: `schwarzschild_radius (2*M) = 2 * schwarzschild_radius M`. -/
theorem schwarzschild_radius_pos_and_linear (M : ℝ) (h : 0 < M) :
    0 < schwarzschild_radius M ∧
      schwarzschild_radius (2 * M) = 2 * schwarzschild_radius M := by
  constructor
  · unfold schwarzschild_radius
    positivity
  · unfold schwarzschild_radius
    ring

/-- Witness for C4 at `M = 10`. -/
theorem schwarzschild_radius_pos_and_linear_witness :
    0 < schwarzschild_radius 10 ∧
      schwarzschild_radius (2 * 10) = 2 * schwarzschild_radius 10 :=
  schwarzschild_radius_pos_and_linear 10 (by norm_num)

/-- C8: `schwarzschild_radius` is total: for every mass `M`, including
`M ≤ 0`, it returns the closed form `2 · G · (M · Msun) / c²` without
any error path, and a non-positive mass silently yields a non-positive
radius. -/
theorem schwarzschild_radius_no_error_path (M : ℝ) :
    schwarzschild_radius M = radius_spec M ∧
      (M ≤ 0 → schwarzschild_radius M ≤ 0) := by
  constructor
  · rfl
  · intro hM
    unfold schwarzschild_radius
    have hnum : 2 * 6.67430e-11 * (M * 1.98847e30) ≤ 0 := by nlinarith
    have hden : (0:ℝ) < 299792458 ^ 2 := by norm_num
    simpa using div_nonpos_of_nonpos_of_nonneg hnum hden.le

/-- Witness for C8 at `M = -1`. -/
theorem schwarzschild_radius_no_error_path_witness :
    schwarzschild_radius (-1) = radius_spec (-1) ∧
      schwarzschild_radius (-1) ≤ 0 := by
  have h := schwarzschild_radius_no_error_path (-1)
  exact ⟨h.1, h.2 (by norm_num)⟩

/-- Pointwise symmetry of the field under point reflection: only the
radial distance enters, and squaring kills the signs. -/
theorem accretion_disk_neg (x y Rs : ℝ) :
    accretion_disk (-x) (-y) Rs = accretion_disk x y Rs := by
  unfold accretion_disk radialDist
  rw [show (-x) ^ 2 + (-y) ^ 2 = x ^ 2 + y ^ 2 by ring]

/-- C1, counterexample: with `Rs = 1`, the radii `0 < 2 < 3·Rs` give a
strictly *smaller* brightness at the larger radius, refuting the claim
that the brightness term is strictly increasing in `r` for `r < 3·Rs`. -/
theorem brightness_increasing_below_3Rs_counterexample :
    (0:ℝ) < 1 ∧ (0:ℝ) < 2 ∧ (2:ℝ) < 3 * 1 ∧
      brightnessTerm 2 1 < brightnessTerm 0 1 := by
  refine ⟨by norm_num, by norm_num, by norm_num, ?_⟩
  simp only [brightnessTerm]
  norm_num [Real.exp_lt_exp]

/-- C1, amended: for every positive radius `Rs`, the brightness term is
strictly decreasing in the radial distance `r` everywhere (hence it is
monotonic, maximal at `r = 0`, and does not peak at `r = 3·Rs`). -/
theorem brightnessTerm_strictAnti (Rs r₁ r₂ : ℝ) (hRs : 0 < Rs)
    (h : r₁ < r₂) : brightnessTerm r₂ Rs < brightnessTerm r₁ Rs := by
  unfold brightnessTerm
  apply Real.exp_lt_exp.mpr
  rw [neg_lt_neg_iff]
  exact (div_lt_div_right hRs).mpr (by linarith)

/-- Witness for the amended C1 at `Rs = 1`, `r₁ = 0`, `r₂ = 1`. -/
theorem brightnessTerm_strictAnti_witness :
    brightnessTerm 1 1 < brightnessTerm 0 1 :=
  brightnessTerm_strictAnti 1 0 1 (by norm_num) (by norm_num)

/-- C5: for every positive radius `Rs`, the field at the origin cell is
exactly `exp 3`: there `r = 0`, the brightness term is `exp 3` and the
color term is `1`. -/
theorem accretion_disk_origin (Rs : ℝ) (hRs : 0 < Rs) :
    accretion_disk 0 0 Rs = Real.exp 3 := by
  have hr : radialDist 0 0 = 0 := by
    unfold radialDist
    simp
  unfold accretion_disk
  rw [hr]
  unfold brightnessTerm colorTerm
  rw [zero_div, sub_zero, zero_sub, neg_div, neg_neg]
  rw [mul_comm Rs 3, mul_div_assoc, div_self hRs.ne', mul_one]
  norm_num

/-- Witness for C5 at `Rs = 1`. -/
theorem accretion_disk_origin_witness :
    accretion_disk 0 0 1 = Real.exp 3 :=
  accretion_disk_origin 1 one_pos

/-- C6: for every positive radius `Rs` and every cell whose radial
distance is at least `5·Rs` (in particular exactly `5·Rs`), the color
term is `0`, so the field value is `0` regardless of the brightness
term. -/
theorem accretion_disk_zero_at_and_beyond_5Rs (Rs x y : ℝ) (hRs : 0 < Rs)
    (h : 5 * Rs ≤ radialDist x y) :
    colorTerm (radialDist x y) Rs = 0 ∧ accretion_disk x y Rs = 0 := by
  have h5 : (0:ℝ) < 5 * Rs := by linarith
  have hc : colorTerm (radialDist x y) Rs = 0 := by
    unfold colorTerm
    have hle : 1 - radialDist x y / (5 * Rs) ≤ 0 := by
      rw [sub_nonpos, le_div_iff h5]
      linarith
    rw [max_eq_right hle]
    exact min_eq_left zero_le_one
  refine ⟨hc, ?_⟩
  unfold accretion_disk
  rw [hc, mul_zero]

/-- Witness for C6 at `Rs = 1`, `(x, y) = (5, 0)`, where `r = 5 = 5·Rs`. -/
theorem accretion_disk_zero_at_and_beyond_5Rs_witness :
    colorTerm (radialDist 5 0) 1 = 0 ∧ accretion_disk 5 0 1 = 0 := by
  have hr : radialDist 5 0 = 5 := by
    unfold radialDist
    rw [show (5:ℝ) ^ 2 + 0 ^ 2 = 5 ^ 2 by norm_num]
    exact Real.sqrt_sq (by norm_num)
  exact accretion_disk_zero_at_and_beyond_5Rs 1 5 0 one_pos (by rw [hr]; norm_num)

/-- C7: for every input grid and every positive radius `Rs`, the color
term of every cell lies in `[0, 1]`: the clamp never produces a value
below `0` or above `1`. -/
theorem colorTerm_grid_mem_unit (g : List (ℝ × ℝ)) (Rs : ℝ) (hRs : 0 < Rs) :
    ∀ p ∈ g, 0 ≤ colorTerm (radialDist p.1 p.2) Rs ∧
      colorTerm (radialDist p.1 p.2) Rs ≤ 1 := by
  intro p _
  unfold colorTerm
  exact ⟨le_min (le_max_right _ _) zero_le_one, min_le_right _ _⟩

/-- Witness for C7 on the singleton grid `[(0, 0)]` with `Rs = 1`. -/
theorem colorTerm_grid_mem_unit_witness :
    0 ≤ colorTerm (radialDist 0 0) 1 ∧ colorTerm (radialDist 0 0) 1 ≤ 1 :=
  colorTerm_grid_mem_unit [(0, 0)] 1 one_pos (0, 0) (List.mem_singleton.mpr rfl)

/-- C9: the field is symmetric under point reflection: for every grid of
coordinate pairs and every radius, negating both coordinates of every
cell leaves the output field unchanged, cell for cell. -/
theorem accretionDiskGrid_point_symm (g : List (ℝ × ℝ)) (Rs : ℝ) :
    accretionDiskGrid (g.map fun p => (-p.1, -p.2)) Rs = accretionDiskGrid g Rs := by
  unfold accretionDiskGrid
  rw [List.map_map]
  simp [Function.comp, accretion_disk_neg]

/-- C10: for every cell and every positive radius `Rs`, the field value
lies in `[0, exp 3]`: it is non-negative and never exceeds the value
`exp 3` attained at the origin. -/
theorem accretion_disk_bounds (x y Rs : ℝ) (hRs : 0 < Rs) :
    0 ≤ accretion_disk x y Rs ∧ accretion_disk x y Rs ≤ Real.exp 3 := by
  have hr : 0 ≤ radialDist x y := Real.sqrt_nonneg _
  have hb0 : 0 < brightnessTerm (radialDist x y) Rs := Real.exp_pos _
  have hc0 : 0 ≤ colorTerm (radialDist x y) Rs :=
    le_min (le_max_right _ _) zero_le_one
  have hc1 : colorTerm (radialDist x y) Rs ≤ 1 := min_le_right _ _
  have hb3 : brightnessTerm (radialDist x y) Rs ≤ Real.exp 3 := by
    unfold brightnessTerm
    apply Real.exp_le_exp.mpr
    rw [neg_le, le_div_iff hRs]
    linarith
  constructor
  · exact mul_nonneg hb0.le hc0
  · have := mul_le_mul hb3 hc1 hc0 (Real.exp_pos 3).le
    simpa using this

/-- Witness for C10 at the origin with `Rs = 1`. -/
theorem accretion_disk_bounds_witness :
    0 ≤ accretion_disk 0 0 1 ∧ accretion_disk 0 0 1 ≤ Real.exp 3 :=
  accretion_disk_bounds 0 0 1 one_pos
